import Mathlib

/-!
Verification development for the pizza_api catalog service.

The embedding models the SQLAlchemy data model of `app/models.py` as an
explicit store of rows (`ingredients`, `pizzas`) and association tables
(`ingredient_ingredients` as `ingredientEdges`, `pizza_ingredients` as
`pizzaEdges`).  The route handlers of `app/ingredients.py` and
`app/pizza.py` become pure functions over this store; a mutation returns
its result together with the store after the transaction (the original
store on any error, since every error path raises before `db.commit()`
and the session rollback discards the pending changes).

The recursive allergen traversal `_get_all_allergens_for_pizza` is
embedded with an explicit fuel parameter bounding the call depth:
`none` for every fuel amount corresponds to the Python recursion never
terminating, `some` for a sufficient fuel amount to the value the Python
function returns.
-/

/-- A row of the `ingredients` table (`app/models.py`, class `Ingredient`).
`sub_ingredients` lives in the association table, modelled separately. -/
structure Ingredient where
  id : Nat
  name : String
  is_allergen : Bool
deriving DecidableEq, Repr

/-- A row of the `pizzas` table (`app/models.py`, class `Pizza`).
`created_at` is modelled as a logical timestamp; `updated_at` is
database-managed metadata no claim depends on and is not modelled. -/
structure Pizza where
  id : Nat
  name : String
  description : String
  created_at : Nat
deriving DecidableEq, Repr

/-- The database state: both entity tables and both association tables
(`ingredient_ingredients` rows are `(parent_ingredient_id, child_ingredient_id)`
pairs, `pizza_ingredients` rows are `(pizza_id, ingredient_id)` pairs). -/
structure Store where
  ingredients : List Ingredient
  pizzas : List Pizza
  ingredientEdges : List (Nat × Nat)
  pizzaEdges : List (Nat × Nat)
deriving DecidableEq, Repr

/-- Embeds `db.query(Ingredient).filter(Ingredient.id == i).first()`. -/
def findIngredient (st : Store) (i : Nat) : Option Ingredient :=
  st.ingredients.find? (fun ing => ing.id = i)

/-- Embeds `db.query(Pizza).filter(Pizza.id == i).first()`. -/
def findPizza (st : Store) (i : Nat) : Option Pizza :=
  st.pizzas.find? (fun p => p.id = i)

/-- The `Ingredient.sub_ingredients` relationship: join the
`ingredient_ingredients` rows whose parent is `ing` with the
`ingredients` table.  A dangling child id produces no row, exactly as in
the SQL join. -/
def sub_ingredients (st : Store) (ing : Ingredient) : List Ingredient :=
  (st.ingredientEdges.filter (fun e => e.1 = ing.id)).filterMap
    (fun e => findIngredient st e.2)

/-- The `Pizza.ingredients` relationship: join the `pizza_ingredients`
rows for pizza `p` with the `ingredients` table; dangling references are
silently dropped by the join. -/
def pizzaIngredientsOf (st : Store) (p : Pizza) : List Ingredient :=
  (st.pizzaEdges.filter (fun e => e.1 = p.id)).filterMap
    (fun e => findIngredient st e.2)

/-- Embeds `allergens.add(x)`, a Python `set` insertion.  The ORM objects hash by
identity, and within one store rows coincide exactly when their ids do,
so insertion is keyed by `Ingredient.id`. -/
def addIng (x : Ingredient) (acc : List Ingredient) : List Ingredient :=
  if acc.any (fun y => y.id = x.id) then acc else acc ++ [x]

/-- The joint loop of `_get_all_allergens_for_pizza` (`app/pizza.py`,
lines 11-29): both the outer loop over `pizza.ingredients` and the inner
`check_sub_ingredients` execute, for each ingredient in the list, `if
ing.is_allergen: allergens.add(ing)` followed by a recursive descent
into `ing.sub_ingredients`.  The Python recursion has no visited set;
`fuel` bounds the recursion depth, and exhausting it at every depth
models non-termination. -/
def check_sub_list (st : Store) : Nat → List Ingredient → List Ingredient →
    Option (List Ingredient)
  | _, [], acc => some acc
  | 0, _ :: _, _ => none
  | fuel + 1, sub :: rest, acc =>
    let acc1 := if sub.is_allergen then addIng sub acc else acc
    match check_sub_list st fuel (sub_ingredients st sub) acc1 with
    | none => none
    | some acc2 => check_sub_list st fuel rest acc2

/-- Embeds `_get_all_allergens_for_pizza(pizza)` with recursion depth bounded
by `fuel`.  For each direct ingredient: add it if it is an allergen,
then recurse into its sub-ingredients (the outer loop body coincides
with the body of `check_sub_ingredients`, which also adds allergenic
list members before descending). -/
def get_all_allergens_for_pizza (st : Store) (fuel : Nat) (p : Pizza) :
    Option (List Ingredient) :=
  check_sub_list st fuel (pizzaIngredientsOf st p) []

/-- One sub-ingredient edge between resolved rows. -/
def SubIng (st : Store) (x y : Ingredient) : Prop :=
  y ∈ sub_ingredients st x

/-- Zero or more `sub_ingredients` edges. -/
def Reaches (st : Store) : Ingredient → Ingredient → Prop :=
  Relation.ReflTransGen (SubIng st)

/-- Reachability from a pizza's directly-held ingredients. -/
def PizzaReaches (st : Store) (p : Pizza) (x : Ingredient) : Prop :=
  ∃ d ∈ pizzaIngredientsOf st p, Reaches st d x

/-- Primary-key invariant of the `ingredients` table. -/
abbrev IngredientIdsNodup (st : Store) : Prop :=
  (st.ingredients.map Ingredient.id).Nodup

/-- Whether `pat` occurs at the head of the second list. -/
def startsWithChars : List Char → List Char → Bool
  | [], _ => true
  | _ :: _, [] => false
  | a :: as, b :: bs => a == b && startsWithChars as bs

/-- Whether `pat` occurs as a contiguous run anywhere in the second list. -/
def hasSubChars (pat : List Char) : List Char → Bool
  | [] => pat.isEmpty
  | b :: bs => startsWithChars pat (b :: bs) || hasSubChars pat bs

/-- SQLAlchemy `icontains` / the Python `needle.lower() in hay.lower()`
check: case-insensitive substring containment. -/
def icontains (hay pat : String) : Bool :=
  hasSubChars (pat.toList.map Char.toLower) (hay.toList.map Char.toLower)

/-- Lexicographic code-point comparison of strings, the model of the SQL
collation used by `order_by(Pizza.name.asc())`. -/
def charListLe : List Char → List Char → Bool
  | [], _ => true
  | _ :: _, [] => false
  | a :: as, b :: bs =>
    if a.toNat < b.toNat then true
    else if b.toNat < a.toNat then false
    else charListLe as bs

/-- Name comparison used for sorting. -/
def nameLe (a b : String) : Bool :=
  charListLe a.toList b.toList

/-- Query parameters of `GET /pizzas/` (`get_pizzas`, `app/pizza.py`).
FastAPI validates `1 ≤ limit ≤ 100` and `1 ≤ page` at the transport
boundary before the handler runs. -/
structure PizzaQuery where
  limit : Nat
  page : Nat
  search : String
  sort_by_name : Bool
  ingredient_filter : Option String
  allergen_filter : Option String
  has_allergens : Option Bool
deriving DecidableEq, Repr

/-- The `search` filter: `if search:` keeps the query unchanged for the
empty string, otherwise name-or-description icontains. -/
def searchFilter (q : PizzaQuery) (l : List Pizza) : List Pizza :=
  if q.search = "" then l
  else l.filter (fun p => icontains p.name q.search || icontains p.description q.search)

/-- The `ingredient_filter` inner join with `Pizza.ingredients`: the SQL
join yields one result row per matching direct ingredient (no
`.distinct()` in the source), so a pizza occurs once per match. -/
def ingredientJoin (st : Store) (q : PizzaQuery) (l : List Pizza) : List Pizza :=
  match q.ingredient_filter with
  | none => l
  | some f =>
    if f = "" then l
    else
      l.flatMap (fun p =>
        ((pizzaIngredientsOf st p).filter (fun ing => icontains ing.name f)).map (fun _ => p))

/-- Embeds `order_by(Pizza.name.asc())` respectively
`order_by(Pizza.created_at.desc())`, modelled as a stable sort. -/
def sortPizzas (q : PizzaQuery) (l : List Pizza) : List Pizza :=
  if q.sort_by_name then
    List.insertionSort (fun a b => nameLe a.name b.name = true) l
  else
    List.insertionSort (fun a b => b.created_at ≤ a.created_at) l

/-- The storage-layer part of `get_pizzas`: search filter, ingredient
join, sort — the sequence to which `offset`/`limit` are applied. -/
def candidatePizzas (st : Store) (q : PizzaQuery) : List Pizza :=
  sortPizzas q (ingredientJoin st q (searchFilter q st.pizzas))

/-- Embeds `query.offset(skip).limit(limit).all()` with `skip = (page-1)*limit`. -/
def storagePage (st : Store) (q : PizzaQuery) : List Pizza :=
  ((candidatePizzas st q).drop ((q.page - 1) * q.limit)).take q.limit

/-- The two allergen-dependent filters of the Python post-processing
loop, as a keep predicate on the resolved allergen list. -/
def allergenKeep (q : PizzaQuery) (al : List Ingredient) : Bool :=
  (match q.allergen_filter with
   | none => true
   | some f => if f = "" then true else al.any (fun a => icontains a.name f))
  &&
  (match q.has_allergens with
   | none => true
   | some b => if b then !al.isEmpty else al.isEmpty)

/-- The `for pizza in pizzas:` post-processing loop of `get_pizzas`:
resolve allergens for every fetched pizza (divergence of the resolver
propagates), drop the pizzas the allergen-dependent filters reject, and
annotate the survivors with their `potential_allergens`. -/
def processLoop (st : Store) (q : PizzaQuery) (fuel : Nat) :
    List Pizza → Option (List (Pizza × List Ingredient))
  | [] => some []
  | p :: rest =>
    match get_all_allergens_for_pizza st fuel p with
    | none => none
    | some al =>
      match processLoop st q fuel rest with
      | none => none
      | some tail => some (if allergenKeep q al then (p, al) :: tail else tail)

/-- Embeds `schemas.PizzaListResponse`: each returned pizza is paired with its
`potential_allergens` annotation. -/
structure PizzaListResponse where
  status : String
  results : Nat
  pizzas : List (Pizza × List Ingredient)
deriving DecidableEq, Repr

/-- The `GET /pizzas/` handler (`get_pizzas`, `app/pizza.py` lines
31-116): storage-layer filters, sort and pagination first, then the
allergen post-processing over the fetched page only, with
`results = len(processed_pizzas)`. -/
def get_pizzas (st : Store) (q : PizzaQuery) (fuel : Nat) : Option PizzaListResponse :=
  match processLoop st q fuel (storagePage st q) with
  | none => none
  | some processed => some ⟨"success", processed.length, processed⟩

/-- The resolved allergen list at a given fuel, defaulting to `[]`;
meaningful whenever the resolver terminates at that fuel. -/
def resolvedAllergens (st : Store) (fuel : Nat) (p : Pizza) : List Ingredient :=
  (get_all_allergens_for_pizza st fuel p).getD []

/-- The `allergen_filter` parameter is falsy in Python (absent or empty). -/
abbrev allergenFilterInactive (q : PizzaQuery) : Prop :=
  q.allergen_filter = none ∨ q.allergen_filter = some ""

/-- The error taxonomy surfaced by the handlers.  `nameConflict` is the
`except IntegrityError` branch; the schema declares no unique constraint
on either `name` column, so no execution reaches it. -/
inductive ApiError where
  | notFound (msg : String)
  | missingRefs (missing : List Nat)
  | nameConflict (msg : String)
deriving DecidableEq, Repr

/-- Embeds `schemas.IngredientCreate` (`sub_ingredient_ids` defaults to `[]`;
`None` and `[]` behave identically under the truthiness check). -/
structure IngredientCreate where
  name : String
  is_allergen : Bool
  sub_ingredient_ids : List Nat
deriving DecidableEq, Repr

/-- Embeds `schemas.IngredientUpdate`: all fields optional. -/
structure IngredientUpdate where
  name : Option String
  is_allergen : Option Bool
  sub_ingredient_ids : Option (List Nat)
deriving DecidableEq, Repr

/-- Embeds `schemas.PizzaCreate`. -/
structure PizzaCreate where
  name : String
  description : String
  ingredient_ids : List Nat
deriving DecidableEq, Repr

/-- Embeds `schemas.PizzaUpdate`: all fields optional. -/
structure PizzaUpdate where
  name : Option String
  description : Option String
  ingredient_ids : Option (List Nat)
deriving DecidableEq, Repr

/-- Embeds `db.query(Ingredient).filter(Ingredient.id.in_(ids)).all()`: each
matching table row once, in table order. -/
def foundIngredients (st : Store) (ids : List Nat) : List Ingredient :=
  st.ingredients.filter (fun ing => ids.contains ing.id)

/-- Embeds `set(requested_ids) - set(found_ids)`, the reported missing-id set. -/
def missingIngredientIds (st : Store) (ids : List Nat) : List Nat :=
  (ids.filter (fun i => !((foundIngredients st ids).map Ingredient.id).contains i)).dedup

/-- Autoincrement primary key for a new `ingredients` row. -/
def nextIngredientId (st : Store) : Nat :=
  (st.ingredients.map Ingredient.id).foldr max 0 + 1

/-- Autoincrement primary key for a new `pizzas` row. -/
def nextPizzaId (st : Store) : Nat :=
  (st.pizzas.map Pizza.id).foldr max 0 + 1

/-- Embeds `POST /ingredients/` (`create_ingredient`, `app/ingredients.py`
lines 18-51).  A non-empty `sub_ingredient_ids` list is resolved against
the table; a length mismatch raises the 400 missing-references error
before anything is written.  The `except IntegrityError` name-conflict
branch cannot fire: `Ingredient.name` carries no unique constraint. -/
def create_ingredient (st : Store) (payload : IngredientCreate) :
    Except ApiError Ingredient × Store :=
  if payload.sub_ingredient_ids.isEmpty then
    let ing : Ingredient := ⟨nextIngredientId st, payload.name, payload.is_allergen⟩
    (.ok ing, { st with ingredients := st.ingredients ++ [ing] })
  else
    let subs := foundIngredients st payload.sub_ingredient_ids
    if subs.length = payload.sub_ingredient_ids.length then
      let newId := nextIngredientId st
      let ing : Ingredient := ⟨newId, payload.name, payload.is_allergen⟩
      (.ok ing,
        { st with
          ingredients := st.ingredients ++ [ing],
          ingredientEdges := st.ingredientEdges ++ subs.map (fun s => (newId, s.id)) })
    else
      (.error (.missingRefs (missingIngredientIds st payload.sub_ingredient_ids)), st)

/-- Embeds `POST /pizzas/` (`create_pizza`, `app/pizza.py` lines 118-154); the
same reference check over `ingredient_ids`, writing the pizza row and
its `pizza_ingredients` rows on success.  As for ingredients, the
name-conflict branch is unreachable (no unique constraint on
`Pizza.name`). -/
def create_pizza (st : Store) (now : Nat) (payload : PizzaCreate) :
    Except ApiError Pizza × Store :=
  if payload.ingredient_ids.isEmpty then
    let pz : Pizza := ⟨nextPizzaId st, payload.name, payload.description, now⟩
    (.ok pz, { st with pizzas := st.pizzas ++ [pz] })
  else
    let ings := foundIngredients st payload.ingredient_ids
    if ings.length = payload.ingredient_ids.length then
      let newId := nextPizzaId st
      let pz : Pizza := ⟨newId, payload.name, payload.description, now⟩
      (.ok pz,
        { st with
          pizzas := st.pizzas ++ [pz],
          pizzaEdges := st.pizzaEdges ++ ings.map (fun s => (newId, s.id)) })
    else
      (.error (.missingRefs (missingIngredientIds st payload.ingredient_ids)), st)

/-- Embeds `PATCH /ingredients/{id}` (`update_ingredient`, `app/ingredients.py`
lines 53-96): absent payload fields leave the row untouched; a present
`sub_ingredient_ids` replaces the row's outgoing association edges after
the reference check; any raised error reaches the caller before
`db.commit()`, so the session rollback leaves the store unchanged. -/
def update_ingredient (st : Store) (iid : Nat) (payload : IngredientUpdate) :
    Except ApiError Ingredient × Store :=
  match findIngredient st iid with
  | none =>
    (.error (.notFound ("No ingredient with this id: " ++ toString iid ++ " found")), st)
  | some ing =>
    let ing1 : Ingredient :=
      { ing with
        name := payload.name.getD ing.name,
        is_allergen := payload.is_allergen.getD ing.is_allergen }
    match payload.sub_ingredient_ids with
    | none =>
      (.ok ing1,
        { st with ingredients := st.ingredients.map (fun j => if j.id = iid then ing1 else j) })
    | some ids =>
      let subs := foundIngredients st ids
      if subs.length = ids.length then
        (.ok ing1,
          { st with
            ingredients := st.ingredients.map (fun j => if j.id = iid then ing1 else j),
            ingredientEdges :=
              st.ingredientEdges.filter (fun e => e.1 ≠ iid) ++ subs.map (fun s => (iid, s.id)) })
      else
        (.error (.missingRefs (missingIngredientIds st ids)), st)

/-- Embeds `PATCH /pizzas/{id}` (`update_pizza`, `app/pizza.py` lines 156-201),
symmetric to the ingredient update over `pizza_ingredients`. -/
def update_pizza (st : Store) (pid : Nat) (payload : PizzaUpdate) :
    Except ApiError Pizza × Store :=
  match findPizza st pid with
  | none =>
    (.error (.notFound ("No pizza with this id: " ++ toString pid ++ " found")), st)
  | some pz =>
    let pz1 : Pizza :=
      { pz with
        name := payload.name.getD pz.name,
        description := payload.description.getD pz.description }
    match payload.ingredient_ids with
    | none =>
      (.ok pz1,
        { st with pizzas := st.pizzas.map (fun j => if j.id = pid then pz1 else j) })
    | some ids =>
      let ings := foundIngredients st ids
      if ings.length = ids.length then
        (.ok pz1,
          { st with
            pizzas := st.pizzas.map (fun j => if j.id = pid then pz1 else j),
            pizzaEdges :=
              st.pizzaEdges.filter (fun e => e.1 ≠ pid) ++ ings.map (fun s => (pid, s.id)) })
      else
        (.error (.missingRefs (missingIngredientIds st ids)), st)

/-- Embeds `DELETE /ingredients/{id}` (`delete_ingredient`,
`app/ingredients.py` lines 114-127).  The session delete removes the row
and the `ingredient_ingredients` rows of the deleted object's own
relationships (both directions); `pizza_ingredients` rows referencing it
are not touched — the join of `Pizza.ingredients` silently drops the
dangling reference on every later read. -/
def delete_ingredient (st : Store) (iid : Nat) : Except ApiError Unit × Store :=
  match findIngredient st iid with
  | none =>
    (.error (.notFound ("No ingredient with this id: " ++ toString iid ++ " found")), st)
  | some _ =>
    (.ok (),
      { st with
        ingredients := st.ingredients.filter (fun j => j.id ≠ iid),
        ingredientEdges := st.ingredientEdges.filter (fun e => e.1 ≠ iid && e.2 ≠ iid) })

/-- Embeds `DELETE /pizzas/{id}` (`delete_pizza`, `app/pizza.py` lines
222-235): removes the pizza row and its `pizza_ingredients` rows. -/
def delete_pizza (st : Store) (pid : Nat) : Except ApiError Unit × Store :=
  match findPizza st pid with
  | none =>
    (.error (.notFound ("No pizza with this id: " ++ toString pid ++ " found")), st)
  | some _ =>
    (.ok (),
      { st with
        pizzas := st.pizzas.filter (fun j => j.id ≠ pid),
        pizzaEdges := st.pizzaEdges.filter (fun e => e.1 ≠ pid) })

/-- Concrete data: a two-ingredient cycle (A sub-ingredient of B and B
sub-ingredient of A) on a pizza holding A directly. -/
def ingA : Ingredient := ⟨1, "A", false⟩

/-- Second node of the cycle. -/
def ingB : Ingredient := ⟨2, "B", false⟩

/-- The pizza holding the cyclic ingredient A. -/
def cyclePizza : Pizza := ⟨1, "Cyclic", "", 0⟩

/-- Store with the A-B cycle. -/
def cycleStore : Store := ⟨[ingA, ingB], [cyclePizza], [(1, 2), (2, 1)], [(1, 1)]⟩

/-- Dough, a non-allergen with allergenic sub-ingredient Gluten. -/
def dough : Ingredient := ⟨1, "Dough", false⟩

/-- Cheese, a non-allergen leaf. -/
def cheese : Ingredient := ⟨2, "Cheese", false⟩

/-- Gluten, the allergen reachable only through Dough. -/
def gluten : Ingredient := ⟨3, "Gluten", true⟩

/-- A pizza with direct ingredients Dough and Cheese. -/
def margherita : Pizza := ⟨1, "Margherita", "classic", 0⟩

/-- A pizza with no ingredients at all. -/
def plainPizza : Pizza := ⟨2, "Plain", "no toppings", 1⟩

/-- Acyclic example store: Dough → Gluten, Margherita holds Dough and
Cheese, Plain holds nothing. -/
def shopStore : Store :=
  ⟨[dough, cheese, gluten], [margherita, plainPizza], [(1, 3)], [(1, 1), (1, 2)]⟩

/-- The store of a fresh database. -/
def emptyStore : Store := ⟨[], [], [], []⟩

/-- A creation payload with no sub-ingredients. -/
def saltPayload : IngredientCreate := ⟨"Salt", false, []⟩

/-! ## Helper lemmas -/

lemma cycle_subA : sub_ingredients cycleStore ingA = [ingB] := rfl

lemma cycle_subB : sub_ingredients cycleStore ingB = [ingA] := rfl

lemma cycle_check_none :
    ∀ fuel acc, check_sub_list cycleStore fuel [ingA] acc = none ∧
      check_sub_list cycleStore fuel [ingB] acc = none := by
  intro fuel
  induction fuel with
  | zero => intro acc; exact ⟨rfl, rfl⟩
  | succ f IH =>
    intro acc
    constructor
    · have h := (IH acc).2
      simp only [check_sub_list, cycle_subA, show ingA.is_allergen = false from rfl,
        Bool.false_eq_true, if_false, h]
    · have h := (IH acc).1
      simp only [check_sub_list, cycle_subB, show ingB.is_allergen = false from rfl,
        Bool.false_eq_true, if_false, h]

/-! ## Claim theorems -/

/-- C1: on an ingredient graph with a cycle reachable from a pizza's
direct ingredients (A sub-ingredient of B and B sub-ingredient of A),
`_get_all_allergens_for_pizza` does not terminate: the recursion has no
visited set, so the traversal exhausts every recursion-depth budget.
This refutes the claim that the traversal is total on cyclic graphs. -/
theorem allergen_resolution_diverges_on_cycle :
    ∀ fuel, get_all_allergens_for_pizza cycleStore fuel cyclePizza = none := by
  intro fuel
  have h : pizzaIngredientsOf cycleStore cyclePizza = [ingA] := rfl
  unfold get_all_allergens_for_pizza
  rw [h]
  exact (cycle_check_none fuel []).1

/-- C2: the schema declares no unique constraint on `Ingredient.name`
(`models.py` line 25), so creating two ingredients with the same name
succeeds twice: the store reaches a state with two ingredients named
"Salt", refuting name uniqueness at reachable states. -/
theorem duplicate_ingredient_name_accepted :
    (create_ingredient emptyStore saltPayload).1 = .ok ⟨1, "Salt", false⟩ ∧
    (create_ingredient (create_ingredient emptyStore saltPayload).2 saltPayload).1 =
      .ok ⟨2, "Salt", false⟩ ∧
    ((create_ingredient (create_ingredient emptyStore saltPayload).2 saltPayload).2.ingredients.filter
        (fun ing => ing.name = "Salt")).length = 2 :=
  ⟨rfl, rfl, rfl⟩

lemma findIngredient_mem {st : Store} {i : Nat} {ing : Ingredient}
    (h : findIngredient st i = some ing) : ing ∈ st.ingredients ∧ ing.id = i := by
  unfold findIngredient at h
  refine ⟨List.mem_of_find?_eq_some h, ?_⟩
  have h2 := List.find?_some h
  simpa using h2

lemma mem_sub_ingredients {st : Store} {x y : Ingredient}
    (h : y ∈ sub_ingredients st x) : y ∈ st.ingredients := by
  unfold sub_ingredients at h
  rcases List.mem_filterMap.mp h with ⟨e, _, he⟩
  exact (findIngredient_mem he).1

lemma mem_pizzaIngredients {st : Store} {p : Pizza} {y : Ingredient}
    (h : y ∈ pizzaIngredientsOf st p) : y ∈ st.ingredients := by
  unfold pizzaIngredientsOf at h
  rcases List.mem_filterMap.mp h with ⟨e, _, he⟩
  exact (findIngredient_mem he).1

lemma ids_nodup_inj {st : Store} (hwf : IngredientIdsNodup st) {a b : Ingredient}
    (ha : a ∈ st.ingredients) (hb : b ∈ st.ingredients) (hid : a.id = b.id) : a = b :=
  List.inj_on_of_nodup_map hwf ha hb hid

lemma addIng_mem {st : Store} (hwf : IngredientIdsNodup st) {x : Ingredient}
    (hx : x ∈ st.ingredients) {acc : List Ingredient}
    (hacc : ∀ a ∈ acc, a ∈ st.ingredients) (y : Ingredient) :
    y ∈ addIng x acc ↔ y ∈ acc ∨ y = x := by
  unfold addIng
  by_cases h : acc.any (fun z => z.id = x.id)
  · rw [if_pos h]
    rcases List.any_eq_true.mp h with ⟨z, hz, hzid⟩
    have hzx : z = x := ids_nodup_inj hwf (hacc z hz) hx (by simpa using hzid)
    constructor
    · exact Or.inl
    · rintro (hy | rfl)
      · exact hy
      · exact hzx ▸ hz
  · rw [if_neg h]
    simp

lemma addIng_sub {st : Store} {x : Ingredient} (hx : x ∈ st.ingredients)
    {acc : List Ingredient} (hacc : ∀ a ∈ acc, a ∈ st.ingredients) :
    ∀ a ∈ addIng x acc, a ∈ st.ingredients := by
  unfold addIng
  split
  · exact hacc
  · intro a ha
    rcases List.mem_append.mp ha with h | h
    · exact hacc a h
    · rw [List.mem_singleton.mp h]; exact hx

lemma addIng_ids_nodup {x : Ingredient} {acc : List Ingredient}
    (h : (acc.map Ingredient.id).Nodup) : ((addIng x acc).map Ingredient.id).Nodup := by
  unfold addIng
  split
  · exact h
  · next hc =>
    rw [List.map_append]
    simp only [List.map_cons, List.map_nil]
    rw [List.nodup_append]
    refine ⟨h, List.nodup_singleton _, ?_⟩
    intro a ha hb
    rcases List.mem_map.mp ha with ⟨z, hz, rfl⟩
    have hzx : z.id = x.id := List.mem_singleton.mp hb
    exact hc (List.any_eq_true.mpr ⟨z, hz, by simpa using hzx⟩)

lemma check_sub_list_mono {st : Store} :
    ∀ {fuel : Nat} {l acc res : List Ingredient},
      check_sub_list st fuel l acc = some res →
      check_sub_list st (fuel + 1) l acc = some res := by
  intro fuel
  induction fuel with
  | zero =>
    intro l acc res h
    cases l with
    | nil => exact h
    | cons s rest => exact absurd h (by simp [check_sub_list])
  | succ f IH =>
    intro l acc res h
    cases l with
    | nil => exact h
    | cons s rest =>
      rw [check_sub_list] at h ⊢
      cases hc : check_sub_list st f (sub_ingredients st s)
          (if s.is_allergen = true then addIng s acc else acc) with
      | none => rw [hc] at h; exact absurd h (by simp)
      | some acc2 =>
        rw [hc] at h
        rw [IH hc]
        exact IH h

lemma check_sub_list_mono_le {st : Store} {fuel fuel' : Nat} {l acc res : List Ingredient}
    (hle : fuel ≤ fuel') (h : check_sub_list st fuel l acc = some res) :
    check_sub_list st fuel' l acc = some res := by
  induction hle with
  | refl => exact h
  | step _ IH => exact check_sub_list_mono IH

lemma le_foldr_max (l : List Nat) : ∀ x ∈ l, x ≤ l.foldr max 0 := by
  induction l with
  | nil => simp
  | cons a t IH =>
    intro x hx
    rcases List.mem_cons.mp hx with rfl | h
    · exact Nat.le_max_left _ _
    · exact Nat.le_trans (IH x h) (Nat.le_max_right _ _)

lemma check_sub_list_total (st : Store) (R : Ingredient → Prop) (rank : Nat → Nat)
    (hwf : IngredientIdsNodup st)
    (hstep : ∀ x y, R x → y ∈ sub_ingredients st x → R y ∧ rank y.id < rank x.id) :
    ∀ B l acc,
      (∀ s ∈ l, s ∈ st.ingredients ∧ R s ∧ rank s.id < B) →
      (∀ a ∈ acc, a ∈ st.ingredients) →
      ∃ fuel res,
        check_sub_list st fuel l acc = some res ∧
        (∀ a ∈ res, a ∈ st.ingredients) ∧
        (∀ x, x ∈ res ↔ x ∈ acc ∨ (x.is_allergen = true ∧ ∃ s ∈ l, Reaches st s x)) ∧
        ((acc.map Ingredient.id).Nodup → (res.map Ingredient.id).Nodup) := by
  intro B
  induction B using Nat.strong_induction_on with
  | _ B IHB =>
    intro l
    induction l with
    | nil =>
      intro acc _ hacc
      exact ⟨0, acc, rfl, hacc, by simp, fun h => h⟩
    | cons s rest IHl =>
      intro acc hl hacc
      obtain ⟨hsSt, hsR, hsB⟩ := hl s (List.mem_cons_self s rest)
      have hacc1 : ∀ a ∈ (if s.is_allergen = true then addIng s acc else acc),
          a ∈ st.ingredients := by
        split
        · exact addIng_sub hsSt hacc
        · exact hacc
      have hacc1mem : ∀ y, y ∈ (if s.is_allergen = true then addIng s acc else acc) ↔
          y ∈ acc ∨ (y = s ∧ s.is_allergen = true) := by
        intro y
        split
        · next hA => rw [addIng_mem hwf hsSt hacc y]; simp [hA]
        · next hA => simp [hA]
      have hacc1nd : (acc.map Ingredient.id).Nodup →
          (((if s.is_allergen = true then addIng s acc else acc)).map Ingredient.id).Nodup := by
        intro h
        split
        · exact addIng_ids_nodup h
        · exact h
      have hsubs : ∀ y ∈ sub_ingredients st s,
          y ∈ st.ingredients ∧ R y ∧ rank y.id < rank s.id := by
        intro y hy
        exact ⟨mem_sub_ingredients hy, (hstep s y hsR hy).1, (hstep s y hsR hy).2⟩
      obtain ⟨f₁, acc2, h1, hacc2, hmem2, hnd2⟩ :=
        IHB (rank s.id) hsB (sub_ingredients st s)
          (if s.is_allergen = true then addIng s acc else acc) hsubs hacc1
      have hrest : ∀ t ∈ rest, t ∈ st.ingredients ∧ R t ∧ rank t.id < B := by
        intro t ht
        exact hl t (List.mem_cons_of_mem s ht)
      obtain ⟨f₂, res, h2, hres, hmem3, hnd3⟩ := IHl acc2 hrest hacc2
      refine ⟨max f₁ f₂ + 1, res, ?_, hres, ?_, ?_⟩
      · rw [check_sub_list]
        rw [check_sub_list_mono_le (Nat.le_max_left f₁ f₂) h1]
        exact check_sub_list_mono_le (Nat.le_max_right f₁ f₂) h2
      · intro x
        rw [hmem3 x, hmem2 x, hacc1mem x]
        have hkey : (x = s ∧ s.is_allergen = true) ∨
            (x.is_allergen = true ∧ ∃ y ∈ sub_ingredients st s, Reaches st y x) ↔
            (x.is_allergen = true ∧ Reaches st s x) := by
          constructor
          · rintro (⟨rfl, hA⟩ | ⟨hA, y, hy, hr⟩)
            · exact ⟨hA, Relation.ReflTransGen.refl⟩
            · exact ⟨hA, Relation.ReflTransGen.head hy hr⟩
          · rintro ⟨hA, hr⟩
            rcases Relation.ReflTransGen.cases_head_iff.mp hr with rfl | ⟨c, hc, hcr⟩
            · exact Or.inl ⟨rfl, hA⟩
            · exact Or.inr ⟨hA, c, hc, hcr⟩
        constructor
        · rintro (((hx | hx) | hx) | hx)
          · exact Or.inl hx
          · rcases hkey.mp (Or.inl hx) with ⟨hA, hr⟩
            exact Or.inr ⟨hA, s, List.mem_cons_self s rest, hr⟩
          · rcases hkey.mp (Or.inr hx) with ⟨hA, hr⟩
            exact Or.inr ⟨hA, s, List.mem_cons_self s rest, hr⟩
          · rcases hx with ⟨hA, t, ht, hr⟩
            exact Or.inr ⟨hA, t, List.mem_cons_of_mem s ht, hr⟩
        · rintro (hx | ⟨hA, t, ht, hr⟩)
          · exact Or.inl (Or.inl (Or.inl hx))
          · rcases List.mem_cons.mp ht with rfl | ht'
            · rcases hkey.mpr ⟨hA, hr⟩ with h | h
              · exact Or.inl (Or.inl (Or.inr h))
              · exact Or.inl (Or.inr h)
            · exact Or.inr ⟨hA, t, ht', hr⟩
      · intro hnd
        exact hnd3 (hnd2 (hacc1nd hnd))

/-- C3: on a pizza whose reachable ingredient graph is acyclic (witnessed
by a rank function decreasing along reachable `sub_ingredients` edges),
the resolver terminates and returns exactly the ingredients with
`is_allergen` set that are reachable from a directly-held ingredient by
zero or more `sub_ingredients` edges, each at most once. -/
theorem allergen_resolution_acyclic_exact (st : Store) (p : Pizza) (rank : Nat → Nat)
    (hwf : IngredientIdsNodup st)
    (hacy : ∀ x y, PizzaReaches st p x → y ∈ sub_ingredients st x →
      rank y.id < rank x.id) :
    ∃ fuel res, get_all_allergens_for_pizza st fuel p = some res ∧
      (∀ x, x ∈ res ↔ x.is_allergen = true ∧
        ∃ d ∈ pizzaIngredientsOf st p, Reaches st d x) ∧
      (res.map Ingredient.id).Nodup := by
  have hstep : ∀ x y, PizzaReaches st p x → y ∈ sub_ingredients st x →
      PizzaReaches st p y ∧ rank y.id < rank x.id := by
    intro x y hx hy
    refine ⟨?_, hacy x y hx hy⟩
    obtain ⟨d, hd, hr⟩ := hx
    exact ⟨d, hd, Relation.ReflTransGen.tail hr hy⟩
  have hB : ∀ d ∈ pizzaIngredientsOf st p,
      rank d.id < ((pizzaIngredientsOf st p).map (fun d => rank d.id)).foldr max 0 + 1 := by
    intro d hd
    have := le_foldr_max ((pizzaIngredientsOf st p).map (fun d => rank d.id)) (rank d.id)
      (List.mem_map.mpr ⟨d, hd, rfl⟩)
    omega
  obtain ⟨fuel, res, h, hsub, hmem, hnd⟩ :=
    check_sub_list_total st (PizzaReaches st p) rank hwf hstep
      (((pizzaIngredientsOf st p).map (fun d => rank d.id)).foldr max 0 + 1)
      (pizzaIngredientsOf st p) []
      (fun d hd => ⟨mem_pizzaIngredients hd, ⟨d, hd, Relation.ReflTransGen.refl⟩, hB d hd⟩)
      (by simp)
  refine ⟨fuel, res, h, ?_, hnd (by simp)⟩
  intro x
  rw [hmem x]
  simp

/-- Witness for C3: the spec's own example — Dough (not an allergen)
with sub-ingredient Gluten (allergen), Cheese a plain leaf, and a pizza
holding Dough and Cheese resolves to exactly {Gluten}. -/
theorem allergen_resolution_acyclic_exact_witness :
    (∃ fuel res, get_all_allergens_for_pizza shopStore fuel margherita = some res ∧
      (∀ x, x ∈ res ↔ x.is_allergen = true ∧
        ∃ d ∈ pizzaIngredientsOf shopStore margherita, Reaches shopStore d x) ∧
      (res.map Ingredient.id).Nodup) ∧
    get_all_allergens_for_pizza shopStore 2 margherita = some [gluten] := by
  refine ⟨allergen_resolution_acyclic_exact shopStore margherita
    (fun i => if i = 1 then 1 else 0) (by decide) ?_, rfl⟩
  intro x y _ hy
  unfold sub_ingredients at hy
  rw [show shopStore.ingredientEdges = [(1, 3)] from rfl] at hy
  rcases List.mem_filterMap.mp hy with ⟨e, he, hfind⟩
  have he' := List.mem_filter.mp he
  have he1 : e = (1, 3) := List.mem_singleton.mp he'.1
  subst he1
  have hx1 : (1 : Nat) = x.id := by simpa using he'.2
  have hy3 : y = gluten := by
    have hg : findIngredient shopStore 3 = some gluten := rfl
    rw [hg] at hfind
    exact (Option.some_inj.mp hfind).symm
  subst hy3
  show (if gluten.id = 1 then 1 else 0) < if x.id = 1 then 1 else 0
  rw [show x.id = 1 from hx1.symm]
  simp [gluten]

lemma find?_filter_congr {α : Type} (p q : α → Bool) (l : List α)
    (h : ∀ x, p x = true → q x = true) :
    (l.filter q).find? p = l.find? p := by
  induction l with
  | nil => rfl
  | cons a t IH =>
    by_cases hq : q a = true
    · rw [List.filter_cons_of_pos hq]
      by_cases hp : p a = true
      · rw [List.find?_cons_of_pos _ hp, List.find?_cons_of_pos _ hp]
      · rw [List.find?_cons_of_neg _ (by simpa using hp), List.find?_cons_of_neg _ (by simpa using hp)]
        exact IH
    · rw [List.filter_cons_of_neg (by simpa using hq)]
      have hp : ¬p a = true := fun hpa => hq (h a hpa)
      rw [List.find?_cons_of_neg _ (by simpa using hp)]
      exact IH

lemma delete_find_aux (st : Store) (iid i : Nat) :
    (st.ingredients.filter (fun k => k.id ≠ iid)).find? (fun ing => ing.id = i) =
      Option.filter (fun ing => ing.id ≠ iid)
        (st.ingredients.find? (fun ing => ing.id = i)) := by
  by_cases hii : i = iid
  · subst hii
    have hL : (st.ingredients.filter (fun k => k.id ≠ i)).find?
        (fun ing => ing.id = i) = none := by
      rw [List.find?_eq_none]
      intro x hx
      have h2 := (List.mem_filter.mp hx).2
      simp only [decide_not, Bool.not_eq_true', decide_eq_false_iff_not] at h2
      simpa using h2
    rw [hL]
    cases hf : st.ingredients.find? (fun ing => ing.id = i) with
    | none => rfl
    | some a =>
      have ha : a.id = i := by simpa using List.find?_some hf
      simp [Option.filter, ha]
  · rw [find?_filter_congr]
    · cases hf : st.ingredients.find? (fun ing => ing.id = i) with
      | none => rfl
      | some a =>
        have ha : a.id = i := by simpa using List.find?_some hf
        have : a.id ≠ iid := ha ▸ hii
        simp [Option.filter, this]
    · intro x hx
      have hxi : x.id = i := by simpa using hx
      simp [hxi, hii]

/-- C9: deleting an ingredient always succeeds when it exists, no matter
how many pizzas or parent ingredients reference it; the row and its
`ingredient_ingredients` rows disappear, pizzas and other ingredients
survive, and every pizza's resolved ingredient set afterwards is the old
set with the deleted ingredient silently dropped. -/
theorem delete_ingredient_spares_referencers (st : Store) (iid : Nat) (ing₀ : Ingredient)
    (h : findIngredient st iid = some ing₀) :
    ∃ st', delete_ingredient st iid = (.ok (), st') ∧
      st'.pizzas = st.pizzas ∧
      st'.ingredients = st.ingredients.filter (fun j => j.id ≠ iid) ∧
      (∀ j ∈ st.ingredients, j.id ≠ iid → j ∈ st'.ingredients) ∧
      (∀ e ∈ st'.ingredientEdges, e.1 ≠ iid ∧ e.2 ≠ iid) ∧
      (∀ p : Pizza, pizzaIngredientsOf st' p =
        (pizzaIngredientsOf st p).filter (fun ing => ing.id ≠ iid)) := by
  unfold delete_ingredient
  rw [h]
  refine ⟨_, rfl, rfl, rfl, ?_, ?_, ?_⟩
  · intro j hj hne
    exact List.mem_filter.mpr ⟨hj, by simpa using hne⟩
  · intro e he
    have h2 := (List.mem_filter.mp he).2
    simp only [Bool.and_eq_true, decide_not, Bool.not_eq_true', decide_eq_false_iff_not] at h2
    exact h2
  · intro p
    unfold pizzaIngredientsOf
    rw [List.filter_filterMap]
    apply List.filterMap_congr
    intro e _
    exact delete_find_aux st iid e.2

/-- Witness for C9: deleting Dough (id 1), which is referenced by the
Margherita pizza and is a parent of Gluten, succeeds and Margherita's
ingredient set silently loses the reference. -/
theorem delete_ingredient_spares_referencers_witness :
    ∃ st', delete_ingredient shopStore 1 = (.ok (), st') ∧
      st'.pizzas = shopStore.pizzas ∧
      st'.ingredients = shopStore.ingredients.filter (fun j => j.id ≠ 1) ∧
      (∀ j ∈ shopStore.ingredients, j.id ≠ 1 → j ∈ st'.ingredients) ∧
      (∀ e ∈ st'.ingredientEdges, e.1 ≠ 1 ∧ e.2 ≠ 1) ∧
      (∀ p : Pizza, pizzaIngredientsOf st' p =
        (pizzaIngredientsOf shopStore p).filter (fun ing => ing.id ≠ 1)) :=
  delete_ingredient_spares_referencers shopStore 1 dough rfl

lemma findIngredient_isSome_iff (st : Store) (i : Nat) :
    (findIngredient st i).isSome = true ↔ ∃ r ∈ st.ingredients, r.id = i := by
  unfold findIngredient
  rw [List.find?_isSome]
  simp

lemma findIngredient_eq_none_iff (st : Store) (i : Nat) :
    findIngredient st i = none ↔ ∀ r ∈ st.ingredients, r.id ≠ i := by
  unfold findIngredient
  rw [List.find?_eq_none]
  simp

lemma foundIds_mem (st : Store) (ids : List Nat) (i : Nat) :
    i ∈ (foundIngredients st ids).map Ingredient.id ↔
      i ∈ ids ∧ ∃ r ∈ st.ingredients, r.id = i := by
  unfold foundIngredients
  simp only [List.mem_map, List.mem_filter]
  constructor
  · rintro ⟨r, ⟨hrSt, hrIds⟩, rfl⟩
    exact ⟨List.elem_iff.mp hrIds, r, hrSt, rfl⟩
  · rintro ⟨hiIds, r, hrSt, rfl⟩
    exact ⟨r, ⟨hrSt, List.elem_iff.mpr hiIds⟩, rfl⟩

lemma foundIds_nodup (st : Store) (hwf : IngredientIdsNodup st) (ids : List Nat) :
    ((foundIngredients st ids).map Ingredient.id).Nodup :=
  List.Nodup.sublist (List.Sublist.map Ingredient.id (List.filter_sublist _)) hwf

lemma foundIds_perm (st : Store) (hwf : IngredientIdsNodup st) (ids : List Nat) :
    ((foundIngredients st ids).map Ingredient.id).Perm
      (ids.dedup.filter (fun i => (findIngredient st i).isSome)) := by
  rw [List.perm_ext_iff_of_nodup (foundIds_nodup st hwf ids)
    (List.Nodup.filter _ (List.nodup_dedup ids))]
  intro i
  rw [foundIds_mem, List.mem_filter, List.mem_dedup]
  constructor
  · rintro ⟨h1, h2⟩
    exact ⟨h1, by simpa using (findIngredient_isSome_iff st i).mpr h2⟩
  · rintro ⟨h1, h2⟩
    exact ⟨h1, (findIngredient_isSome_iff st i).mp (by simpa using h2)⟩

lemma found_length_eq (st : Store) (hwf : IngredientIdsNodup st) (ids : List Nat) :
    (foundIngredients st ids).length =
      (ids.dedup.filter (fun i => (findIngredient st i).isSome)).length := by
  have h := (foundIds_perm st hwf ids).length_eq
  simpa [List.length_map] using h

lemma found_length_lt_of_missing (st : Store) (hwf : IngredientIdsNodup st)
    {ids : List Nat} {i₀ : Nat} (hi : i₀ ∈ ids) (hmiss : findIngredient st i₀ = none) :
    (foundIngredients st ids).length < ids.length := by
  rw [found_length_eq st hwf ids]
  calc (ids.dedup.filter (fun i => (findIngredient st i).isSome)).length
      < ids.dedup.length := by
        rw [List.length_filter_lt_length_iff_exists]
        exact ⟨i₀, List.mem_dedup.mpr hi, by simp [hmiss]⟩
    _ ≤ ids.length := (List.dedup_sublist ids).length_le

lemma found_length_lt_of_dup (st : Store) (hwf : IngredientIdsNodup st)
    {ids : List Nat} (hall : ∀ i ∈ ids, (findIngredient st i).isSome = true)
    (hdup : ¬ids.Nodup) :
    (foundIngredients st ids).length < ids.length := by
  rw [found_length_eq st hwf ids]
  rw [List.filter_eq_self.mpr (fun i hi => by simpa using hall i (List.mem_dedup.mp hi))]
  have hsub := List.dedup_sublist ids
  have hle := hsub.length_le
  have hne : ids.dedup.length ≠ ids.length := by
    intro he
    exact hdup (hsub.eq_of_length he ▸ List.nodup_dedup ids)
  omega

lemma missing_ids_mem (st : Store) (ids : List Nat) (i : Nat) :
    i ∈ missingIngredientIds st ids ↔ i ∈ ids ∧ findIngredient st i = none := by
  unfold missingIngredientIds
  rw [List.mem_dedup, List.mem_filter]
  constructor
  · rintro ⟨h1, h2⟩
    refine ⟨h1, ?_⟩
    cases hf : findIngredient st i with
    | none => rfl
    | some r =>
      exfalso
      have hmem := findIngredient_mem hf
      have hin : i ∈ (foundIngredients st ids).map Ingredient.id :=
        (foundIds_mem st ids i).mpr ⟨h1, r, hmem.1, hmem.2⟩
      rw [Bool.not_eq_true', ← Bool.not_eq_true] at h2
      exact h2 (List.elem_iff.mpr hin)
  · rintro ⟨h1, h2⟩
    refine ⟨h1, ?_⟩
    have hnot : i ∉ (foundIngredients st ids).map Ingredient.id := by
      intro hin
      rcases (foundIds_mem st ids i).mp hin with ⟨_, r, hrSt, hrId⟩
      exact (findIngredient_eq_none_iff st i).mp h2 r hrSt hrId
    simpa using hnot

/-- C4: any create or update whose referenced-id list names at least one
id with no matching ingredient row fails with the 400 missing-references
error, leaves the store exactly as it was, and the enumerated missing
set is precisely the requested ids that have no row in the store. -/
theorem missing_reference_rejection (st : Store) (now : Nat) (hwf : IngredientIdsNodup st) :
    (∀ pl : PizzaCreate, (∃ i ∈ pl.ingredient_ids, findIngredient st i = none) →
      create_pizza st now pl =
        (.error (.missingRefs (missingIngredientIds st pl.ingredient_ids)), st) ∧
      ∀ i, i ∈ missingIngredientIds st pl.ingredient_ids ↔
        i ∈ pl.ingredient_ids ∧ findIngredient st i = none) ∧
    (∀ pl : IngredientCreate, (∃ i ∈ pl.sub_ingredient_ids, findIngredient st i = none) →
      create_ingredient st pl =
        (.error (.missingRefs (missingIngredientIds st pl.sub_ingredient_ids)), st) ∧
      ∀ i, i ∈ missingIngredientIds st pl.sub_ingredient_ids ↔
        i ∈ pl.sub_ingredient_ids ∧ findIngredient st i = none) ∧
    (∀ (pid : Nat) (pl : PizzaUpdate) (ids : List Nat),
      (findPizza st pid).isSome = true → pl.ingredient_ids = some ids →
      (∃ i ∈ ids, findIngredient st i = none) →
      update_pizza st pid pl = (.error (.missingRefs (missingIngredientIds st ids)), st)) ∧
    (∀ (iid : Nat) (pl : IngredientUpdate) (ids : List Nat),
      (findIngredient st iid).isSome = true → pl.sub_ingredient_ids = some ids →
      (∃ i ∈ ids, findIngredient st i = none) →
      update_ingredient st iid pl =
        (.error (.missingRefs (missingIngredientIds st ids)), st)) := by
  refine ⟨?_, ?_, ?_, ?_⟩
  · rintro pl ⟨i₀, hi₀, hm⟩
    have hne : ¬pl.ingredient_ids.isEmpty = true := by
      intro h
      rw [List.isEmpty_iff.mp h] at hi₀
      exact List.not_mem_nil i₀ hi₀
    have hlen := found_length_lt_of_missing st hwf hi₀ hm
    unfold create_pizza
    rw [if_neg hne, if_neg (Nat.ne_of_lt hlen)]
    exact ⟨rfl, fun i => missing_ids_mem st pl.ingredient_ids i⟩
  · rintro pl ⟨i₀, hi₀, hm⟩
    have hne : ¬pl.sub_ingredient_ids.isEmpty = true := by
      intro h
      rw [List.isEmpty_iff.mp h] at hi₀
      exact List.not_mem_nil i₀ hi₀
    have hlen := found_length_lt_of_missing st hwf hi₀ hm
    unfold create_ingredient
    rw [if_neg hne, if_neg (Nat.ne_of_lt hlen)]
    exact ⟨rfl, fun i => missing_ids_mem st pl.sub_ingredient_ids i⟩
  · rintro pid pl ids hp hids ⟨i₀, hi₀, hm⟩
    obtain ⟨pz, hpz⟩ := Option.isSome_iff_exists.mp hp
    have hlen := found_length_lt_of_missing st hwf hi₀ hm
    unfold update_pizza
    rw [hpz, hids]
    dsimp only
    rw [if_neg (Nat.ne_of_lt hlen)]
  · rintro iid pl ids hp hids ⟨i₀, hi₀, hm⟩
    obtain ⟨ing, hing⟩ := Option.isSome_iff_exists.mp hp
    have hlen := found_length_lt_of_missing st hwf hi₀ hm
    unfold update_ingredient
    rw [hing, hids]
    dsimp only
    rw [if_neg (Nat.ne_of_lt hlen)]

/-- Witness for C4: with only ingredients 1-3 in the store, a pizza
creation referencing ids 1 and 9 is rejected with exactly {9} missing,
and the store is unchanged. -/
theorem missing_reference_rejection_witness :
    (create_pizza shopStore 7 ⟨"Quattro", "four", [1, 9]⟩ =
      (.error (.missingRefs (missingIngredientIds shopStore [1, 9])), shopStore) ∧
      ∀ i, i ∈ missingIngredientIds shopStore [1, 9] ↔
        i ∈ [1, 9] ∧ findIngredient shopStore i = none) ∧
    missingIngredientIds shopStore [1, 9] = [9] :=
  ⟨(missing_reference_rejection shopStore 7 (by decide)).1 ⟨"Quattro", "four", [1, 9]⟩
    ⟨9, by decide, rfl⟩, rfl⟩

/-- C10: a referenced-id list that repeats an existing id (all ids
present, at least one duplicate) is rejected with the missing-references
error even though nothing is missing, and the enumerated missing-id list
is empty — the existence check compares the count of distinct found rows
against the duplicate-counting length of the request list. -/
theorem duplicate_ids_spurious_missing_error (st : Store) (now : Nat)
    (hwf : IngredientIdsNodup st) (ids : List Nat)
    (hall : ∀ i ∈ ids, (findIngredient st i).isSome = true) (hdup : ¬ids.Nodup) :
    missingIngredientIds st ids = [] ∧
    (∀ name desc, create_pizza st now ⟨name, desc, ids⟩ = (.error (.missingRefs []), st)) ∧
    (∀ name alg, create_ingredient st ⟨name, alg, ids⟩ = (.error (.missingRefs []), st)) ∧
    (∀ (iid : Nat) (pl : IngredientUpdate), (findIngredient st iid).isSome = true →
      pl.sub_ingredient_ids = some ids →
      update_ingredient st iid pl = (.error (.missingRefs []), st)) := by
  have hmiss : missingIngredientIds st ids = [] := by
    rw [List.eq_nil_iff_forall_not_mem]
    intro i hi
    rcases (missing_ids_mem st ids i).mp hi with ⟨hin, hnone⟩
    have := hall i hin
    rw [hnone] at this
    exact absurd this (by simp)
  have hne : ¬ids.isEmpty = true := by
    intro h
    rw [List.isEmpty_iff.mp h] at hdup
    exact hdup (List.nodup_nil)
  have hlen := found_length_lt_of_dup st hwf hall hdup
  refine ⟨hmiss, ?_, ?_, ?_⟩
  · intro name desc
    unfold create_pizza
    rw [if_neg hne, if_neg (Nat.ne_of_lt hlen), hmiss]
  · intro name alg
    unfold create_ingredient
    rw [if_neg hne, if_neg (Nat.ne_of_lt hlen), hmiss]
  · intro iid pl hp hids
    obtain ⟨ing, hing⟩ := Option.isSome_iff_exists.mp hp
    unfold update_ingredient
    rw [hing, hids]
    dsimp only
    rw [if_neg (Nat.ne_of_lt hlen), hmiss]

/-- Witness for C10: `ingredient_ids = [3, 3]` with ingredient 3 present
is rejected as a 400 missing-references error whose missing list is
empty. -/
theorem duplicate_ids_spurious_missing_error_witness :
    missingIngredientIds shopStore [3, 3] = [] ∧
    create_pizza shopStore 7 ⟨"Doppio", "twice", [3, 3]⟩ =
      (.error (.missingRefs []), shopStore) := by
  have h := duplicate_ids_spurious_missing_error shopStore 7 (by decide) [3, 3]
    (by decide) (by decide)
  exact ⟨h.1, h.2.1 "Doppio" "twice"⟩

/-- C8: a successful PATCH changes only the fields present in the
payload: an omitted name, description or allergen flag keeps its prior
value, an omitted referenced-id list leaves the association table rows
untouched, and entities of the other kind (and other rows of the same
kind) are unchanged. -/
theorem partial_update_preserves_omitted_fields (st : Store) :
    (∀ (iid : Nat) (pl : IngredientUpdate) (ing₀ ing' : Ingredient) (st' : Store),
      findIngredient st iid = some ing₀ →
      update_ingredient st iid pl = (.ok ing', st') →
      ing'.id = ing₀.id ∧
      (pl.name = none → ing'.name = ing₀.name) ∧
      (pl.is_allergen = none → ing'.is_allergen = ing₀.is_allergen) ∧
      (pl.sub_ingredient_ids = none → st'.ingredientEdges = st.ingredientEdges) ∧
      st'.pizzas = st.pizzas ∧ st'.pizzaEdges = st.pizzaEdges ∧
      (∀ j ∈ st.ingredients, j.id ≠ iid → j ∈ st'.ingredients)) ∧
    (∀ (pid : Nat) (pl : PizzaUpdate) (pz₀ pz' : Pizza) (st' : Store),
      findPizza st pid = some pz₀ →
      update_pizza st pid pl = (.ok pz', st') →
      pz'.id = pz₀.id ∧ pz'.created_at = pz₀.created_at ∧
      (pl.name = none → pz'.name = pz₀.name) ∧
      (pl.description = none → pz'.description = pz₀.description) ∧
      (pl.ingredient_ids = none → st'.pizzaEdges = st.pizzaEdges) ∧
      st'.ingredients = st.ingredients ∧ st'.ingredientEdges = st.ingredientEdges ∧
      (∀ j ∈ st.pizzas, j.id ≠ pid → j ∈ st'.pizzas)) := by
  constructor
  · intro iid pl ing₀ ing' st' hfind hup
    unfold update_ingredient at hup
    rw [hfind] at hup
    dsimp only at hup
    cases hsub : pl.sub_ingredient_ids with
    | none =>
      rw [hsub] at hup
      dsimp only at hup
      rw [Prod.mk.injEq] at hup
      obtain ⟨h1, h2⟩ := hup
      have hing : ing' = { ing₀ with
          name := pl.name.getD ing₀.name,
          is_allergen := pl.is_allergen.getD ing₀.is_allergen } :=
        (Except.ok.inj h1).symm
      subst hing
      subst h2
      refine ⟨rfl, ?_, ?_, fun _ => rfl, rfl, rfl, ?_⟩
      · intro hn; rw [hn]; rfl
      · intro hn; rw [hn]; rfl
      · intro j hj hne
        exact List.mem_map.mpr ⟨j, hj, by simp [hne]⟩
    | some ids =>
      rw [hsub] at hup
      dsimp only at hup
      by_cases hlen : (foundIngredients st ids).length = ids.length
      · rw [if_pos hlen, Prod.mk.injEq] at hup
        obtain ⟨h1, h2⟩ := hup
        have hing : ing' = { ing₀ with
            name := pl.name.getD ing₀.name,
            is_allergen := pl.is_allergen.getD ing₀.is_allergen } :=
          (Except.ok.inj h1).symm
        subst hing
        subst h2
        refine ⟨rfl, ?_, ?_, ?_, rfl, rfl, ?_⟩
        · intro hn; rw [hn]; rfl
        · intro hn; rw [hn]; rfl
        · intro hn; exact Option.noConfusion hn
        · intro j hj hne
          exact List.mem_map.mpr ⟨j, hj, by simp [hne]⟩
      · rw [if_neg hlen, Prod.mk.injEq] at hup
        exact absurd hup.1 (by simp)
  · intro pid pl pz₀ pz' st' hfind hup
    unfold update_pizza at hup
    rw [hfind] at hup
    dsimp only at hup
    cases hsub : pl.ingredient_ids with
    | none =>
      rw [hsub] at hup
      dsimp only at hup
      rw [Prod.mk.injEq] at hup
      obtain ⟨h1, h2⟩ := hup
      have hpz : pz' = { pz₀ with
          name := pl.name.getD pz₀.name,
          description := pl.description.getD pz₀.description } :=
        (Except.ok.inj h1).symm
      subst hpz
      subst h2
      refine ⟨rfl, rfl, ?_, ?_, fun _ => rfl, rfl, rfl, ?_⟩
      · intro hn; rw [hn]; rfl
      · intro hn; rw [hn]; rfl
      · intro j hj hne
        exact List.mem_map.mpr ⟨j, hj, by simp [hne]⟩
    | some ids =>
      rw [hsub] at hup
      dsimp only at hup
      by_cases hlen : (foundIngredients st ids).length = ids.length
      · rw [if_pos hlen, Prod.mk.injEq] at hup
        obtain ⟨h1, h2⟩ := hup
        have hpz : pz' = { pz₀ with
            name := pl.name.getD pz₀.name,
            description := pl.description.getD pz₀.description } :=
          (Except.ok.inj h1).symm
        subst hpz
        subst h2
        refine ⟨rfl, rfl, ?_, ?_, ?_, rfl, rfl, ?_⟩
        · intro hn; rw [hn]; rfl
        · intro hn; rw [hn]; rfl
        · intro hn; exact Option.noConfusion hn
        · intro j hj hne
          exact List.mem_map.mpr ⟨j, hj, by simp [hne]⟩
      · rw [if_neg hlen, Prod.mk.injEq] at hup
        exact absurd hup.1 (by simp)

/-- Witness for C8: an all-fields-omitted PATCH of ingredient 1 and of
pizza 2 leaves everything exactly as it was. -/
theorem partial_update_preserves_omitted_fields_witness :
    (dough.id = dough.id ∧
      ((⟨none, none, none⟩ : IngredientUpdate).name = none → dough.name = dough.name) ∧
      ((⟨none, none, none⟩ : IngredientUpdate).is_allergen = none →
        dough.is_allergen = dough.is_allergen) ∧
      ((⟨none, none, none⟩ : IngredientUpdate).sub_ingredient_ids = none →
        shopStore.ingredientEdges = shopStore.ingredientEdges) ∧
      shopStore.pizzas = shopStore.pizzas ∧ shopStore.pizzaEdges = shopStore.pizzaEdges ∧
      (∀ j ∈ shopStore.ingredients, j.id ≠ 1 → j ∈ shopStore.ingredients)) ∧
    (plainPizza.id = plainPizza.id ∧ plainPizza.created_at = plainPizza.created_at ∧
      ((⟨none, none, none⟩ : PizzaUpdate).name = none → plainPizza.name = plainPizza.name) ∧
      ((⟨none, none, none⟩ : PizzaUpdate).description = none →
        plainPizza.description = plainPizza.description) ∧
      ((⟨none, none, none⟩ : PizzaUpdate).ingredient_ids = none →
        shopStore.pizzaEdges = shopStore.pizzaEdges) ∧
      shopStore.ingredients = shopStore.ingredients ∧
      shopStore.ingredientEdges = shopStore.ingredientEdges ∧
      (∀ j ∈ shopStore.pizzas, j.id ≠ 2 → j ∈ shopStore.pizzas)) :=
  ⟨(partial_update_preserves_omitted_fields shopStore).1 1 ⟨none, none, none⟩ dough dough
      shopStore rfl rfl,
    (partial_update_preserves_omitted_fields shopStore).2 2 ⟨none, none, none⟩ plainPizza
      plainPizza shopStore rfl rfl⟩

lemma processLoop_eq (st : Store) (q : PizzaQuery) (fuel : Nat) :
    ∀ l : List Pizza, (∀ p ∈ l, (get_all_allergens_for_pizza st fuel p).isSome = true) →
      processLoop st q fuel l =
        some ((l.map (fun p => (p, resolvedAllergens st fuel p))).filter
          (fun x => allergenKeep q x.2)) := by
  intro l
  induction l with
  | nil => intro _; rfl
  | cons p rest IH =>
    intro h
    obtain ⟨al, hal⟩ := Option.isSome_iff_exists.mp (h p (List.mem_cons_self p rest))
    have hres : resolvedAllergens st fuel p = al := by
      unfold resolvedAllergens
      rw [hal]
      rfl
    rw [processLoop, hal, IH (fun p hp => h p (List.mem_cons_of_mem _ hp))]
    rw [List.map_cons, List.filter_cons, hres]

lemma processLoop_isSome (st : Store) (q : PizzaQuery) (fuel : Nat) :
    ∀ (l : List Pizza) (out : List (Pizza × List Ingredient)),
      processLoop st q fuel l = some out →
      ∀ p ∈ l, (get_all_allergens_for_pizza st fuel p).isSome = true := by
  intro l
  induction l with
  | nil => intro out _ p hp; exact absurd hp (List.not_mem_nil p)
  | cons p rest IH =>
    intro out h p' hp'
    rw [processLoop] at h
    cases hal : get_all_allergens_for_pizza st fuel p with
    | none => rw [hal] at h; exact absurd h (by simp)
    | some al =>
      rw [hal] at h
      rcases List.mem_cons.mp hp' with rfl | hmem
      · simp [hal]
      · cases ht : processLoop st q fuel rest with
        | none => rw [ht] at h; exact absurd h (by simp)
        | some tail => exact IH tail ht p' hmem

/-- C5: whenever `get_pizzas` terminates, the reported `results` equals
the number of returned pizzas, and the returned list is exactly the
storage page (search/ingredient filters, sort, skip, limit) filtered
afterwards by the allergen-dependent predicates — allergen filtering
applies to the fetched page only, so the count reflects the post-filter
page, not a total over the whole table. -/
theorem results_count_post_filter_page (st : Store) (q : PizzaQuery) (fuel : Nat)
    (resp : PizzaListResponse) (h : get_pizzas st q fuel = some resp) :
    resp.results = resp.pizzas.length ∧
    resp.pizzas = ((storagePage st q).map (fun p => (p, resolvedAllergens st fuel p))).filter
      (fun x => allergenKeep q x.2) := by
  unfold get_pizzas at h
  cases hp : processLoop st q fuel (storagePage st q) with
  | none => rw [hp] at h; exact absurd h (by simp)
  | some out =>
    rw [hp] at h
    have hresp : resp = ⟨"success", out.length, out⟩ := (Option.some_inj.mp h).symm
    subst hresp
    have hall := processLoop_isSome st q fuel (storagePage st q) out hp
    have heq := processLoop_eq st q fuel (storagePage st q) hall
    rw [hp] at heq
    exact ⟨rfl, Option.some_inj.mp heq⟩

/-- Witness for C5: an active allergen filter "glu" over the example
store keeps only the Margherita out of the fetched page, and `results`
is the length of that post-filter page. -/
theorem results_count_post_filter_page_witness :
    (⟨"success", 1, [(margherita, [gluten])]⟩ : PizzaListResponse).results =
      (⟨"success", 1, [(margherita, [gluten])]⟩ : PizzaListResponse).pizzas.length ∧
    (⟨"success", 1, [(margherita, [gluten])]⟩ : PizzaListResponse).pizzas =
      ((storagePage shopStore ⟨3, 1, "", false, none, some "glu", none⟩).map
        (fun p => (p, resolvedAllergens shopStore 5 p))).filter
        (fun x => allergenKeep ⟨3, 1, "", false, none, some "glu", none⟩ x.2) :=
  results_count_post_filter_page shopStore ⟨3, 1, "", false, none, some "glu", none⟩ 5
    ⟨"success", 1, [(margherita, [gluten])]⟩ rfl

lemma resolvedAllergens_empty (st : Store) (fuel : Nat) (p : Pizza)
    (h : pizzaIngredientsOf st p = []) : resolvedAllergens st fuel p = [] := by
  unfold resolvedAllergens get_all_allergens_for_pizza
  rw [h]
  cases fuel <;> rfl

/-- C7: a pizza with no direct ingredients resolves to the empty
allergen list at every recursion budget; in the list endpoint (with the
substring allergen filter inactive) the returned page is exactly the
fetched page filtered by `has_allergens`, so such a pizza is excluded
when `has_allergens=true` and included (with empty annotation) when
`has_allergens=false`. -/
theorem empty_pizza_allergens_and_has_filter (st : Store) (q : PizzaQuery) (fuel : Nat)
    (resp : PizzaListResponse) (hA : allergenFilterInactive q)
    (hres : get_pizzas st q fuel = some resp) :
    (∀ p : Pizza, pizzaIngredientsOf st p = [] →
      get_all_allergens_for_pizza st fuel p = some []) ∧
    resp.pizzas = ((storagePage st q).map (fun p => (p, resolvedAllergens st fuel p))).filter
      (fun x => match q.has_allergens with
        | some true => !x.2.isEmpty
        | some false => x.2.isEmpty
        | none => true) ∧
    (∀ p ∈ storagePage st q, pizzaIngredientsOf st p = [] →
      (q.has_allergens = some true → ∀ al, (p, al) ∉ resp.pizzas) ∧
      (q.has_allergens = some false → (p, []) ∈ resp.pizzas)) := by
  have hempty : ∀ p : Pizza, pizzaIngredientsOf st p = [] →
      get_all_allergens_for_pizza st fuel p = some [] := by
    intro p hp
    unfold get_all_allergens_for_pizza
    rw [hp]
    cases fuel <;> rfl
  have hkeep : ∀ al : List Ingredient, allergenKeep q al =
      (match q.has_allergens with
        | some true => !al.isEmpty
        | some false => al.isEmpty
        | none => true) := by
    intro al
    unfold allergenKeep
    have h1 : (match q.allergen_filter with
        | none => true
        | some f => if f = "" then true else al.any (fun a => icontains a.name f)) = true := by
      rcases hA with h | h <;> rw [h] <;> simp
    rw [h1, Bool.true_and]
    cases q.has_allergens with
    | none => rfl
    | some b => cases b <;> rfl
  obtain ⟨_, hpage⟩ := results_count_post_filter_page st q fuel resp hres
  have hpage' : resp.pizzas =
      ((storagePage st q).map (fun p => (p, resolvedAllergens st fuel p))).filter
        (fun x => match q.has_allergens with
          | some true => !x.2.isEmpty
          | some false => x.2.isEmpty
          | none => true) := by
    rw [hpage]
    exact List.filter_congr (fun x _ => hkeep x.2)
  refine ⟨hempty, hpage', ?_⟩
  intro p hp hpempty
  have hres0 : resolvedAllergens st fuel p = [] := resolvedAllergens_empty st fuel p hpempty
  constructor
  · intro htrue al hmem
    rw [hpage'] at hmem
    have h1 := List.mem_filter.mp hmem
    rcases List.mem_map.mp h1.1 with ⟨p', _, hpp⟩
    have hpeq : p' = p := congrArg Prod.fst hpp
    have haleq : al = resolvedAllergens st fuel p' := (congrArg Prod.snd hpp).symm
    rw [hpeq, hres0] at haleq
    subst haleq
    rw [htrue] at h1
    simp at h1
  · intro hfalse
    rw [hpage']
    refine List.mem_filter.mpr ⟨List.mem_map.mpr ⟨p, hp, by rw [hres0]⟩, ?_⟩
    rw [hfalse]
    simp

/-- Witness for C7: in the example store the Plain pizza has no
ingredients; with `has_allergens=true` it is absent from the response
(which keeps only Margherita), and it would be kept with an empty
annotation under `has_allergens=false`. -/
theorem empty_pizza_allergens_and_has_filter_witness :
    (∀ p : Pizza, pizzaIngredientsOf shopStore p = [] →
      get_all_allergens_for_pizza shopStore 5 p = some []) ∧
    (⟨"success", 1, [(margherita, [gluten])]⟩ : PizzaListResponse).pizzas =
      ((storagePage shopStore ⟨10, 1, "", false, none, none, some true⟩).map
        (fun p => (p, resolvedAllergens shopStore 5 p))).filter
      (fun x => match (⟨10, 1, "", false, none, none, some true⟩ : PizzaQuery).has_allergens with
        | some true => !x.2.isEmpty
        | some false => x.2.isEmpty
        | none => true) ∧
    (∀ p ∈ storagePage shopStore ⟨10, 1, "", false, none, none, some true⟩,
      pizzaIngredientsOf shopStore p = [] →
      ((⟨10, 1, "", false, none, none, some true⟩ : PizzaQuery).has_allergens = some true →
        ∀ al, (p, al) ∉ (⟨"success", 1, [(margherita, [gluten])]⟩ : PizzaListResponse).pizzas) ∧
      ((⟨10, 1, "", false, none, none, some true⟩ : PizzaQuery).has_allergens = some false →
        (p, []) ∈ (⟨"success", 1, [(margherita, [gluten])]⟩ : PizzaListResponse).pizzas)) :=
  empty_pizza_allergens_and_has_filter shopStore ⟨10, 1, "", false, none, none, some true⟩ 5
    ⟨"success", 1, [(margherita, [gluten])]⟩ (Or.inl rfl) rfl

lemma charListLe_total : ∀ as bs, charListLe as bs = true ∨ charListLe bs as = true := by
  intro as
  induction as with
  | nil => intro bs; exact Or.inl rfl
  | cons a at' IH =>
    intro bs
    cases bs with
    | nil => exact Or.inr rfl
    | cons b bt =>
      rcases Nat.lt_trichotomy a.toNat b.toNat with h | h | h
      · left
        simp [charListLe, h]
      · have h1 : ¬a.toNat < b.toNat := by omega
        have h2 : ¬b.toNat < a.toNat := by omega
        rcases IH bt with hh | hh
        · left
          simp [charListLe, h1, h2, hh]
        · right
          simp [charListLe, h1, h2, hh]
      · right
        simp [charListLe, h]

lemma charListLe_trans : ∀ as bs cs, charListLe as bs = true → charListLe bs cs = true →
    charListLe as cs = true := by
  intro as
  induction as with
  | nil => intro bs cs _ _; rfl
  | cons a at' IH =>
    intro bs cs hab hbc
    cases bs with
    | nil => exact absurd hab (by simp [charListLe])
    | cons b bt =>
      cases cs with
      | nil => exact absurd hbc (by simp [charListLe])
      | cons c ct =>
        by_cases h1 : a.toNat < b.toNat
        · by_cases h2 : b.toNat < c.toNat
          · have h3 : a.toNat < c.toNat := by omega
            simp [charListLe, h3]
          · by_cases h3 : c.toNat < b.toNat
            · exact absurd hbc (by simp [charListLe, h2, h3])
            · have h4 : a.toNat < c.toNat := by omega
              simp [charListLe, h4]
        · by_cases h4 : b.toNat < a.toNat
          · exact absurd hab (by simp [charListLe, h1, h4])
          · have hatb : charListLe at' bt = true := by
              simpa [charListLe, h1, h4] using hab
            by_cases h2 : b.toNat < c.toNat
            · have h3 : a.toNat < c.toNat := by omega
              simp [charListLe, h3]
            · by_cases h3 : c.toNat < b.toNat
              · exact absurd hbc (by simp [charListLe, h2, h3])
              · have hbtc : charListLe bt ct = true := by
                  simpa [charListLe, h2, h3] using hbc
                have h5 : ¬a.toNat < c.toNat := by omega
                have h6 : ¬c.toNat < a.toNat := by omega
                simp [charListLe, h5, h6, IH bt ct hatb hbtc]

lemma take_drop_slices_disjoint {α : Type} (l : List α) (hl : l.Nodup) (L a b : Nat)
    (hab : a < b) :
    List.Disjoint ((l.drop (a * L)).take L) ((l.drop (b * L)).take L) := by
  intro x hx1 hx2
  have h1 : x ∈ l.take (a * L + L) := by
    rw [List.take_add]
    exact List.mem_append.mpr (Or.inr hx1)
  have h2 : x ∈ l.drop (b * L) := List.take_subset _ _ hx2
  have hle : a * L + L ≤ b * L := by
    have hm : (a + 1) * L ≤ b * L := Nat.mul_le_mul_right L hab
    have hs : (a + 1) * L = a * L + L := Nat.succ_mul a L
    omega
  exact List.disjoint_take_drop hl hle h1 h2

lemma allergenKeep_true_of_inactive (q : PizzaQuery) (hA : allergenFilterInactive q)
    (hH : q.has_allergens = none) (al : List Ingredient) : allergenKeep q al = true := by
  unfold allergenKeep
  rw [hH]
  rcases hA with h | h <;> rw [h] <;> simp

/-- C6: with the allergen-dependent filters inactive, the returned page
is the slice of the filtered sorted candidate sequence starting at
offset `(page-1)*limit` of length at most `limit` (`limit` 1-100,
`page` 1-based); under `sort_by_name` the candidate sequence is in
non-decreasing name order, and distinct pages cut disjoint slices out of
any duplicate-free candidate sequence. -/
theorem pagination_slice_and_order (st : Store) (q : PizzaQuery) (fuel : Nat)
    (resp : PizzaListResponse)
    (hlim : 1 ≤ q.limit ∧ q.limit ≤ 100) (hpage : 1 ≤ q.page)
    (hA : allergenFilterInactive q) (hH : q.has_allergens = none)
    (hres : get_pizzas st q fuel = some resp) :
    resp.pizzas.map Prod.fst = storagePage st q ∧
    storagePage st q = ((candidatePizzas st q).drop ((q.page - 1) * q.limit)).take q.limit ∧
    resp.pizzas.length ≤ q.limit ∧
    (q.sort_by_name = true →
      List.Pairwise (fun a b : Pizza => nameLe a.name b.name = true) (candidatePizzas st q)) ∧
    (q.sort_by_name = false →
      List.Pairwise (fun a b : Pizza => b.created_at ≤ a.created_at) (candidatePizzas st q)) ∧
    ((candidatePizzas st q).Nodup → ∀ a b : Nat, 1 ≤ a → 1 ≤ b → a ≠ b →
      List.Disjoint (((candidatePizzas st q).drop ((a - 1) * q.limit)).take q.limit)
        (((candidatePizzas st q).drop ((b - 1) * q.limit)).take q.limit)) := by
  obtain ⟨_, hpg⟩ := results_count_post_filter_page st q fuel resp hres
  have hfil : resp.pizzas =
      (storagePage st q).map (fun p => (p, resolvedAllergens st fuel p)) := by
    rw [hpg, List.filter_eq_self.mpr (fun x _ => allergenKeep_true_of_inactive q hA hH x.2)]
  refine ⟨?_, rfl, ?_, ?_, ?_, ?_⟩
  · rw [hfil, List.map_map]
    exact List.map_id _
  · rw [hfil, List.length_map]
    exact List.length_take_le _ _
  · intro hsort
    unfold candidatePizzas sortPizzas
    rw [if_pos hsort]
    exact @List.sorted_insertionSort Pizza (fun a b => nameLe a.name b.name = true)
      (fun a b => inferInstance)
      ⟨fun a b => charListLe_total a.name.toList b.name.toList⟩
      ⟨fun a b c hab hbc => charListLe_trans a.name.toList b.name.toList c.name.toList hab hbc⟩
      (ingredientJoin st q (searchFilter q st.pizzas))
  · intro hsort
    unfold candidatePizzas sortPizzas
    rw [if_neg (by simp [hsort])]
    exact @List.sorted_insertionSort Pizza (fun a b => b.created_at ≤ a.created_at)
      (fun a b => inferInstance)
      ⟨fun a b => Nat.le_total b.created_at a.created_at⟩
      ⟨fun a b c hab hbc => Nat.le_trans hbc hab⟩
      (ingredientJoin st q (searchFilter q st.pizzas))
  · intro hnd a b ha hb hne
    rcases Nat.lt_or_ge a b with h | h
    · exact take_drop_slices_disjoint _ hnd q.limit (a - 1) (b - 1) (by omega)
    · have hba : b < a := by omega
      exact (take_drop_slices_disjoint _ hnd q.limit (b - 1) (a - 1) (by omega)).symm

/-- Witness for C6: `limit=3, page=1, sort_by_name=true` over the
example store serves the name-sorted slice [Margherita, Plain] with no
allergen-dependent filter active. -/
theorem pagination_slice_and_order_witness :
    ((⟨"success", 2, [(margherita, [gluten]), (plainPizza, [])]⟩ :
        PizzaListResponse).pizzas.map Prod.fst =
      storagePage shopStore ⟨3, 1, "", true, none, none, none⟩) ∧
    (storagePage shopStore ⟨3, 1, "", true, none, none, none⟩ =
      ((candidatePizzas shopStore ⟨3, 1, "", true, none, none, none⟩).drop ((1 - 1) * 3)).take 3) ∧
    ((⟨"success", 2, [(margherita, [gluten]), (plainPizza, [])]⟩ :
        PizzaListResponse).pizzas.length ≤ 3) ∧
    ((⟨3, 1, "", true, none, none, none⟩ : PizzaQuery).sort_by_name = true →
      List.Pairwise (fun a b : Pizza => nameLe a.name b.name = true)
        (candidatePizzas shopStore ⟨3, 1, "", true, none, none, none⟩)) ∧
    ((⟨3, 1, "", true, none, none, none⟩ : PizzaQuery).sort_by_name = false →
      List.Pairwise (fun a b : Pizza => b.created_at ≤ a.created_at)
        (candidatePizzas shopStore ⟨3, 1, "", true, none, none, none⟩)) ∧
    ((candidatePizzas shopStore ⟨3, 1, "", true, none, none, none⟩).Nodup →
      ∀ a b : Nat, 1 ≤ a → 1 ≤ b → a ≠ b →
      List.Disjoint
        (((candidatePizzas shopStore ⟨3, 1, "", true, none, none, none⟩).drop ((a - 1) * 3)).take 3)
        (((candidatePizzas shopStore ⟨3, 1, "", true, none, none, none⟩).drop ((b - 1) * 3)).take 3)) :=
  pagination_slice_and_order shopStore ⟨3, 1, "", true, none, none, none⟩ 5
    ⟨"success", 2, [(margherita, [gluten]), (plainPizza, [])]⟩
    ⟨by decide, by decide⟩ (by decide) (Or.inl rfl) rfl rfl
